import Mathlib

/-!
A shallow embedding of the JIT code-generation core of `crates/codegen/src/lib.rs`
(the live code at lines 1-714; the commented-out block below line 716 is dead text).

Conventions of the embedding:
* Dense ids (`VarId`, `TmpId`, `BlockId`, `FuncId`) are `Nat` (the source wraps a
  `usize` in a newtype; `IndexOf::index` projects it back).
* Rust panics (`unwrap`, `expect`, `todo!`, out-of-bounds indexing) are `none`
  of an `Option`; the recoverable `Result` layer is `Except Error`.
* LLVM entities (`inkwell` values, types, functions, builders) are modelled by
  small first-order data: a native module is the list of functions added to it,
  a `FunctionValue` is its index plus its signature, and instruction emission
  appends to an instruction list.
* The crates `typeck` and `parser`, and the module `codegen/src/types.rs`, are
  not part of the sources; every definition standing in for them carries a
  doc comment starting `Modelled from the spec:`.
-/

/-- The type-checker's `Type` tag set (source name `typeck::Type`, renamed: `Type`
is a Lean keyword). Modelled from the spec: §3 "a closed tag set including at
least `I32`, `Bool`, `Void`, `Never`, and function types"; a function type is
identified by an opaque signature id, since function values exist only as
identities (§3 SlotValue). -/
inductive Ty where
  | I32
  | Bool
  | Void
  | Never
  | Func (sig : Nat)
deriving DecidableEq, Repr

/-- `parser::ast::BinaryOp`. Modelled from the spec: the operator table of §4.4
lists exactly these binary operators. -/
inductive BinaryOp where
  | Add
  | Sub
  | Mul
  | Div
  | Rem
  | Lt
  | Le
  | Gt
  | Ge
  | Eq
  | Neq
  | And
  | Or
deriving DecidableEq, Repr

/-- `inkwell::IntPredicate` (the predicates the source constructs). -/
inductive IntPredicate where
  | SLT
  | SLE
  | SGT
  | SGE
  | EQ
  | NE
deriving DecidableEq, Repr

/-- The native instruction kind picked by the `BinExpr` operator table
(`build_int_add`, ..., `build_int_compare`, `build_and`, `build_or`). -/
inductive NativeOp where
  | add
  | sub
  | mul
  | sdiv
  | srem
  | icmp (p : IntPredicate)
  | band
  | bor
deriving DecidableEq, Repr

/-- An LLVM first-class type as far as the core distinguishes them: integer
widths, plus the non-integer kinds the extern-bridge return match treats as
unsupported placeholders. -/
inductive LlvmTy where
  | int (width : Nat)
  | structTy
  | floatTy
  | ptrTy
  | arrayTy
  | vectorTy
deriving DecidableEq, Repr

/-- An LLVM function signature: return type (`none` = void) and parameter types. -/
structure LlvmFnTy where
  ret : Option LlvmTy
  params : List LlvmTy
deriving DecidableEq, Repr

/-- `Type::as_llvm` of `codegen/src/types.rs` (file not under the sources).
Modelled from the spec: §4.1 "Each `Type` maps to zero or one native
parameter; a type that maps to *no* native parameter (e.g. a zero-sized
unit/void type used as a parameter)", and §3 "No native bit-pattern ever
represents a function as data". `I32` is a 32-bit integer, `Bool` a 1-bit
integer (§4.4 "bitwise and/or over a 1-bit integer representation"); `Void`,
`Never` and function types have no native value representation. -/
def asLlvm : Ty → Option LlvmTy
  | .I32 => some (.int 32)
  | .Bool => some (.int 1)
  | .Void => none
  | .Never => none
  | .Func _ => none

/-- `Type::as_llvm_meta` of `codegen/src/types.rs` (file not under the sources).
Modelled from the spec: the metadata-typed view used for parameter lists maps
each `Type` to zero or one native parameter exactly as `as_llvm` does. -/
def asLlvmMeta : Ty → Option LlvmTy :=
  asLlvm

/-- `Type::as_llvm_fn` of `codegen/src/types.rs` (file not under the sources).
Modelled from the spec: §4.1, builds the native signature from the return
type's mapping and an already-built native parameter list. -/
def asLlvmFn (ret : Ty) (params : List LlvmTy) : LlvmFnTy :=
  { ret := asLlvm ret, params := params }

/-- The pointer-sized integer type (`ctx.ptr_sized_int_type`), 64-bit in the
model. -/
def usizeLl : LlvmTy :=
  .int 64

/-- A constant literal carried by `Statement::Const` (`typeck` is not under the
sources). Modelled from the spec: §3 "`Const{dst:TmpId, src:ConstLiteral}` —
binds `dst` to a compile-time literal"; the literal kinds follow the value
types of §4.4 (i32 and bool). -/
inductive ConstLit where
  | i32 (v : Int)
  | bool (b : Bool)
deriving DecidableEq, Repr

/-- The typed IR statement set, `typeck::Statement` as the source matches on it
(lines 297-548). Modelled from the spec: §3 lists the same tagged union with
the same fields. -/
inductive Statement where
  | Let (dst src : Nat)
  | Store (dst src : Nat)
  | Load (dst src : Nat)
  | Extern (dst src : Nat)
  | Func (dst src : Nat)
  | Const (dst : Nat) (src : ConstLit)
  | BinExpr (dst lhs : Nat) (op : BinaryOp) (rhs : Nat)
  | Call (dst func : Nat) (args : List Nat)
  | Return (value : Nat)
  | ReturnVoid
  | UnconditionalJump (id : Nat)
  | ConditionalJump (bool then_block else_block : Nat)
deriving DecidableEq, Repr

/-- A typed IR basic block: its ordered statements (spec §3 Block). -/
structure TBlock where
  stmts : List Statement
deriving DecidableEq, Repr

/-- `typeck::Function` (crate not under the sources). Modelled from the spec:
§3 Function: "`params: [Type]`, `returns: Type`, `is_extern: bool`,
`variables: [Type]` (indexed by VarId), `temporaries: [Type]` (indexed by
TmpId), `blocks: ordered [(BlockId, Block)]`". The `variables` field is named
`vars` here because `variables` is a reserved word in Lean. -/
structure TFunction where
  params : List Ty
  returns : Ty
  isExtern : Bool
  vars : List Ty
  temporaries : List Ty
  blocks : List (Nat × TBlock)
deriving DecidableEq, Repr

/-- `typeck::Module` (crate not under the sources). Modelled from the spec: §3
Module "owns all functions; provides `get_type(id)`, `functions()`, and
mutation `add_extern(name, ret, params) -> FuncId`". Types are stored inline
as `Ty`, so `get_type` is the identity and elided. -/
structure TModule where
  functions : List TFunction
deriving DecidableEq, Repr

/-- `typeck::Module::new()`: a module owning no functions yet. Modelled from
the spec: §3 (ids are dense and zero-based, so a fresh module is empty). -/
def TModule.new : TModule :=
  { functions := [] }

/-- `typeck::Module::add_extern(name, ret, params) -> FuncId` (crate not under
the sources). Modelled from the spec: registers a typed extern function and
returns its dense, zero-based `FuncId` — the index at which the function is
appended. The name is recorded nowhere the core reads back, so it is dropped. -/
def TModule.addExternFn (m : TModule) (_name : String) (ret : Ty) (params : List Ty) :
    Nat × TModule :=
  (m.functions.length,
   { functions := m.functions ++
       [{ params := params, returns := ret, isExtern := true,
          vars := [], temporaries := [], blocks := [] }] })

/-- `IdMap<K, V>` (source lines 109-151): a dense-id map backed by
`Vec<Option<V>>`. `vals` is the vector's contents (its Rust length) and
`allocCap` models the `Vec`'s allocation capacity, which only ever grows:
`resize` guarantees capacity at least the new length, and `Vec::clear` keeps
the allocation. Keys are the `usize` indices that `IndexOf::index` extracts. -/
structure IdMap (V : Type) where
  vals : List (Option V)
  allocCap : Nat
deriving DecidableEq, Repr

/-- `IdMap::new()` (line 115): empty vector, no allocation. -/
def IdMap.new {V : Type} : IdMap V :=
  { vals := [], allocCap := 0 }

/-- `IdMap::reserve(new_len)` (lines 122-126): grow the vector to `new_len`
with `None`s when it is shorter, otherwise leave it alone. The allocation
capacity grows to at least `new_len` and never shrinks. -/
def IdMap.reserve {V : Type} (m : IdMap V) (newLen : Nat) : IdMap V :=
  if m.vals.length < newLen then
    { vals := m.vals ++ List.replicate (newLen - m.vals.length) none,
      allocCap := max m.allocCap newLen }
  else m

/-- `IdMap::clear()` (lines 128-130): `Vec::clear` — the length drops to zero,
the allocation is retained. -/
def IdMap.clear {V : Type} (m : IdMap V) : IdMap V :=
  { m with vals := [] }

/-- `IdMap::get(k)` (lines 141-144): `self.vals[k.index()].as_ref().unwrap()`.
`none` models the panic, both for an out-of-range index and for an unset slot. -/
def IdMap.get {V : Type} (m : IdMap V) (k : Nat) : Option V :=
  m.vals.getD k none

/-- `IdMap::set(k, v)` (lines 147-150): `self.vals[k.index()] = Some(v)`.
Indexing panics (`none`) when `k` is at or beyond the vector's length; the
backing storage is never extended by `set`. -/
def IdMap.set {V : Type} (m : IdMap V) (k : Nat) (v : V) : Option (IdMap V) :=
  if k < m.vals.length then some { m with vals := m.vals.set k (some v) }
  else none

/-- The number of slots `get`/`set` can address without panicking: the backing
vector's current length. -/
def IdMap.addressableSlots {V : Type} (m : IdMap V) : Nat :=
  m.vals.length

/-- One call against an `IdMap` in a `reserve`/`clear` sequence. -/
inductive MapOp where
  | reserve (n : Nat)
  | clear
deriving DecidableEq, Repr

/-- Run a sequence of `reserve`/`clear` calls left to right. -/
def IdMap.applyOps {V : Type} (m : IdMap V) : List MapOp → IdMap V
  | [] => m
  | .reserve n :: rest => (m.reserve n).applyOps rest
  | .clear :: rest => m.clear.applyOps rest

lemma listGetD_append_replicate_none {V : Type} (l : List (Option V)) (n i : Nat) :
    (l ++ List.replicate n (none : Option V)).getD i none = l.getD i none := by
  induction l generalizing i with
  | nil =>
    cases i with
    | zero => cases n <;> simp [List.replicate, List.getD]
    | succ j =>
      cases n with
      | zero => simp [List.getD]
      | succ k =>
        simp only [List.nil_append, List.replicate, List.getD]
        have := listGetD_append_replicate_none ([] : List (Option V)) k j
        simp only [List.nil_append, List.getD] at this
        exact this
  | cons a l ih =>
    cases i with
    | zero => simp [List.getD]
    | succ j => simpa [List.getD] using ih j

lemma listGetD_set_self {V : Type} (l : List (Option V)) (k : Nat) (v : Option V)
    (h : k < l.length) : (l.set k v).getD k none = v := by
  induction l generalizing k with
  | nil => simp at h
  | cons a l ih =>
    cases k with
    | zero => simp [List.getD]
    | succ j =>
      simp only [List.length_cons, Nat.succ_lt_succ_iff] at h
      simpa [List.getD] using ih j h

lemma listGetD_set_other {V : Type} (l : List (Option V)) (k i : Nat) (v : Option V)
    (hne : i ≠ k) : (l.set k v).getD i none = l.getD i none := by
  induction l generalizing k i with
  | nil => simp
  | cons a l ih =>
    cases k with
    | zero =>
      cases i with
      | zero => exact absurd rfl hne
      | succ j => simp [List.getD]
    | succ m =>
      cases i with
      | zero => simp [List.getD]
      | succ j =>
        have : j ≠ m := fun h => hne (by rw [h])
        simpa [List.getD] using ih m j this

lemma listGetD_ge_length {V : Type} (l : List (Option V)) (i : Nat)
    (h : l.length ≤ i) : l.getD i none = none := by
  induction l generalizing i with
  | nil => simp [List.getD]
  | cons a l ih =>
    cases i with
    | zero => simp at h
    | succ j =>
      simp only [List.length_cons, Nat.succ_le_succ_iff] at h
      simpa [List.getD] using ih j h

lemma IdMap.get_lt_of_some {V : Type} {m : IdMap V} {i : Nat} {v : V}
    (h : m.get i = some v) : i < m.vals.length := by
  by_contra hge
  rw [IdMap.get, listGetD_ge_length m.vals i (Nat.le_of_not_lt hge)] at h
  exact Option.noConfusion h

lemma IdMap.set_eq_some_iff {V : Type} {m : IdMap V} {k : Nat} {v : V} :
    (∃ m', m.set k v = some m') ↔ k < m.vals.length := by
  constructor
  · rintro ⟨m', hm⟩
    rw [IdMap.set] at hm
    by_contra hge
    simp [hge] at hm
  · intro hk
    exact ⟨_, by rw [IdMap.set, if_pos hk]⟩

lemma IdMap.length_of_set {V : Type} {m m' : IdMap V} {k : Nat} {v : V}
    (h : m.set k v = some m') : m'.vals.length = m.vals.length := by
  rw [IdMap.set] at h
  split at h
  · cases h; simp
  · exact absurd h (by simp)

lemma IdMap.lt_of_set {V : Type} {m m' : IdMap V} {k : Nat} {v : V}
    (h : m.set k v = some m') : k < m.vals.length := by
  rw [IdMap.set] at h
  split at h
  · assumption
  · exact absurd h (by simp)

lemma IdMap.get_set_self {V : Type} {m m' : IdMap V} {k : Nat} {v : V}
    (h : m.set k v = some m') : m'.get k = some v := by
  have hk := IdMap.lt_of_set h
  rw [IdMap.set, if_pos hk] at h
  cases h
  exact listGetD_set_self m.vals k (some v) hk

lemma IdMap.get_set_other {V : Type} {m m' : IdMap V} {k i : Nat} {v : V}
    (h : m.set k v = some m') (hne : i ≠ k) : m'.get i = m.get i := by
  have hk := IdMap.lt_of_set h
  rw [IdMap.set, if_pos hk] at h
  cases h
  exact listGetD_set_other m.vals k i (some v) hne

lemma IdMap.length_reserve {V : Type} (m : IdMap V) (n : Nat) :
    (m.reserve n).vals.length = max m.vals.length n := by
  rw [IdMap.reserve]
  split
  · simp only [List.length_append, List.length_replicate]
    omega
  · omega

lemma IdMap.allocCap_reserve_le {V : Type} (m : IdMap V) (n : Nat) :
    m.allocCap ≤ (m.reserve n).allocCap := by
  rw [IdMap.reserve]
  split <;> simp [le_max_left]

lemma IdMap.le_allocCap_reserve {V : Type} (m : IdMap V) (n : Nat)
    (h : n ≤ m.vals.length → n ≤ m.allocCap) : n ≤ (m.reserve n).allocCap := by
  rw [IdMap.reserve]
  split
  · exact le_max_right _ _
  · exact h (Nat.le_of_not_lt (by assumption))

/-- `codegen::Error` (source lines 29-36). The `Type(typeck::Error)` variant is
`typeErr` here (`Type` is a Lean keyword); the inner type-checker error is an
opaque message. -/
inductive Error where
  | NoMainFn
  | InvalidMainFn
  | StaticRedefined (name : String)
  | VariableNotFound (name : String)
  | typeErr (e : String)
deriving DecidableEq, Repr

/-- `inkwell::values::FunctionValue`: the identity of a function added to the
native module (its index in the module) together with its signature, which the
source reads back through `get_param_iter` and `try_as_basic_value`. -/
structure FunctionValue where
  id : Nat
  ty : LlvmFnTy
deriving DecidableEq, Repr

/-- One argument of the indirect call built inside an extern-bridge wrapper:
either the fixed userdata constant (`ty_usize.const_int(userdata, false)`) or
the wrapper's own `i`-th parameter (from `wrapper_ptr.get_param_iter()`). -/
inductive CallArg where
  | userdata (v : Nat)
  | paramRef (i : Nat)
deriving DecidableEq, Repr

/-- How an extern-bridge wrapper returns the wrapped call's result (the match
over `try_as_basic_value` at lines 604-616 and 679-691): an integer result is
returned directly, a void result returns nothing; every other kind is an
unsupported `todo!` placeholder and never produces a `RetBridge`. -/
inductive RetBridge where
  | intRet
  | voidRet
deriving DecidableEq, Repr

/-- The body of an extern-bridge wrapper: the raw callee address
(`build_int_to_ptr` of the constant), the signature the indirect call uses,
the argument list, and the return bridging. -/
structure ThunkBody where
  calleeAddr : Nat
  callTy : LlvmFnTy
  args : List CallArg
  retBridge : RetBridge
deriving DecidableEq, Repr

/-- A function of the native module: its name, signature, and — for extern
bridge wrappers — the thunk body built into it. -/
structure NativeFn where
  name : String
  ty : LlvmFnTy
  body : Option ThunkBody
deriving DecidableEq, Repr

/-- `inkwell::module::Module`: the functions added to it, in order. -/
structure NativeModule where
  fns : List NativeFn
deriving DecidableEq, Repr

/-- `Module::add_function(name, ty, None)`: appends a function with no body yet
and returns its `FunctionValue`. -/
def NativeModule.addFunction (m : NativeModule) (name : String) (ty : LlvmFnTy) :
    FunctionValue × NativeModule :=
  ({ id := m.fns.length, ty := ty },
   { fns := m.fns ++ [{ name := name, ty := ty, body := none }] })

/-- Attach a built thunk body to function `i` of the module (the effect of the
builder emitting the wrapper's body between `add_function` and `verify`). -/
def NativeModule.attachBody (m : NativeModule) (i : Nat) (b : ThunkBody) : NativeModule :=
  { fns :=
      match m.fns.get? i with
      | some nf => m.fns.set i { nf with body := some b }
      | none => m.fns }

/-- The return-bridging match over `try_as_basic_value` (lines 604-616 and
679-691): which `RetBridge` the wrapper gets for a call-site return type.
`none` models the `todo!` arms (array, float, pointer, struct, vector). -/
def bridgeRet : Option LlvmTy → Option RetBridge
  | some (.int _) => some .intRet
  | some _ => none
  | none => some .voidRet

/-- Build an extern-bridge thunk body: callee address, call signature, argument
list, and the return bridging chosen from the call signature's return type. -/
def mkBridgeBody (addr : Nat) (callTy : LlvmFnTy) (args : List CallArg) :
    Option ThunkBody :=
  (bridgeRet callTy.ret).map fun rb =>
    { calleeAddr := addr, callTy := callTy, args := args, retBridge := rb }

/-- `ModuleGen` (source lines 197-207), restricted to the state the claims
read: the native module, the typed module, and the `FuncId -> FunctionValue`
map. The context, builders and JIT engine carry no modelled state. -/
structure ModuleGen where
  mdl : NativeModule
  types : TModule
  functions : IdMap FunctionValue
deriving DecidableEq, Repr

/-- `CodeGen::module()` (lines 164-186): a fresh compilation session — empty
native module, `typeck::Module::new()`, `IdMap::new()`. -/
def ModuleGen.fresh : ModuleGen :=
  { mdl := { fns := [] }, types := TModule.new, functions := IdMap.new }

/-- `ModuleGen::add_extern` (source lines 567-625). The `F: FnAsLlvm` bound is
flattened to the data the body reads from it: `f.return_type()`,
`f.params()`, and `f.as_extern_c_fn_ptr()` as a raw address. Steps, in source
order: build the visible parameter list by `filter_map(as_llvm_meta)`, build
`wrapper_ty`, `add_function(name, ...)`, register the typed extern
(`types.add_extern`), `functions.set(func_id, wrapper_ptr)` — with no
`reserve`, so the `set` indexes the map as-is — then build the wrapper body:
forward all wrapper parameters in order into an indirect call through the raw
address using `wrapper_ty`, and bridge the result. Returns `Ok(())` (modelled
as the updated generator); no error is ever constructed. -/
def ModuleGen.addExtern (gen : ModuleGen) (name : String) (fnPtrAddr : Nat)
    (ret : Ty) (params : List Ty) : Option (Except Error ModuleGen) :=
  let paramTypes := params.filterMap asLlvmMeta
  let wrapperTy := asLlvmFn ret paramTypes
  let wp := gen.mdl.addFunction name wrapperTy
  let fid := gen.types.addExternFn name ret params
  match gen.functions.set fid.1 wp.1 with
  | none => none
  | some fns1 =>
    let args : List CallArg := (List.range wrapperTy.params.length).map .paramRef
    match mkBridgeBody fnPtrAddr wrapperTy args with
    | none => none
    | some body =>
      some (.ok { mdl := wp.2.attachBody wp.1.id body, types := fid.2, functions := fns1 })

/-- `ModuleGen::add_extern_userdata` (source lines 629-700). Steps, in source
order: build `wrapped_ty` with the pointer-sized userdata word prepended to
the mapped parameters, build the externally visible `wrapper_ty` from the
mapped parameters alone, `add_function(name, wrapper_ty, None)`, register the
typed extern, `functions.reserve(func_id + 1)` then `functions.set`, and
build the wrapper body: the indirect call through the raw address uses
`wrapped_ty` and passes the fixed userdata constant first, then the wrapper's
own parameters in order (`iter::once(userdata).chain(params)`). -/
def ModuleGen.addExternUserdata (gen : ModuleGen) (name : String) (fnPtr ud : Nat)
    (ret : Ty) (params : List Ty) : Option (Except Error ModuleGen) :=
  let wrappedTy := asLlvmFn ret (usizeLl :: params.filterMap asLlvmMeta)
  let paramTypes := params.filterMap asLlvmMeta
  let wrapperTy := asLlvmFn ret paramTypes
  let wp := gen.mdl.addFunction name wrapperTy
  let fid := gen.types.addExternFn name ret params
  let fns0 := gen.functions.reserve (fid.1 + 1)
  match fns0.set fid.1 wp.1 with
  | none => none
  | some fns1 =>
    let args : List CallArg :=
      .userdata ud :: (List.range wrapperTy.params.length).map .paramRef
    match mkBridgeBody fnPtr wrappedTy args with
    | none => none
    | some body =>
      some (.ok { mdl := wp.2.attachBody wp.1.id body, types := fid.2, functions := fns1 })

/-- The parameter collection of `to_prototype` (source lines 67-71):
`func.params.iter().map(|ty| ...as_llvm_meta(gen).unwrap()).collect()` — every
parameter type is mapped through `as_llvm_meta` and **unwrapped**, so a single
type with no native parameter mapping panics (`none`) instead of being
skipped. -/
def collectUnwrapped : List Ty → Option (List LlvmTy)
  | [] => some []
  | t :: rest =>
    match asLlvmMeta t with
    | none => none
    | some l =>
      match collectUnwrapped rest with
      | none => none
      | some ls => some (l :: ls)

/-- `to_prototype` (source lines 66-75): collect the unwrapped parameter
mappings, then build the signature with `as_llvm_fn`. -/
def toPrototype (func : TFunction) : Option LlvmFnTy :=
  (collectUnwrapped func.params).map fun ps => asLlvmFn func.returns ps

/-- The prototype loop of `ModuleGen::add` (source lines 221-232): for every
function of the typed module, in index order (`i` is the running index),
skipping externs: build the prototype and `add_function` a stub, then
`functions.set(FuncId(i), func)`. -/
def protoLoop (mdl : NativeModule) (fns : IdMap FunctionValue) (i : Nat) :
    List TFunction → Option (NativeModule × IdMap FunctionValue)
  | [] => some (mdl, fns)
  | f :: rest =>
    if f.isExtern then protoLoop mdl fns (i + 1) rest
    else
      match toPrototype f with
      | none => none
      | some proto =>
        let fv := mdl.addFunction "fixme-keep-function-name" proto
        match fns.set i fv.1 with
        | none => none
        | some fns1 => protoLoop fv.2 fns1 (i + 1) rest

/-- The prototype pass of `ModuleGen::add` (source lines 216-232): reserve the
function map up to the typed module's function count, then run the prototype
loop over all functions from index 0. -/
def prototypePass (gen : ModuleGen) : Option ModuleGen :=
  let fns := gen.functions.reserve gen.types.functions.length
  (protoLoop gen.mdl fns 0 gen.types.functions).map fun r =>
    { gen with mdl := r.1, functions := r.2 }

/-- The local enum `FuncOr<T>` of `ModuleGen::add` (source lines 236-258): a
compiled binding is either a materialized value (`T`) or a native function
identity (`FunctionValue`). -/
inductive FuncOr (α : Type) where
  | T (v : α)
  | FunctionValue (f : FunctionValue)
deriving DecidableEq, Repr

/-- `FuncOr::as_t` (lines 243-249). -/
def FuncOr.as_t {α : Type} : FuncOr α → Option α
  | .T v => some v
  | .FunctionValue _ => none

/-- Reducible alias for `FunctionValue`, usable where the constructor
`FuncOr.FunctionValue` would shadow the structure's name. -/
abbrev FnValue := FunctionValue

/-- `FuncOr::as_function_value` (lines 251-257). -/
def FuncOr.as_function_value {α : Type} : FuncOr α → Option FnValue
  | .T _ => none
  | .FunctionValue f => some f

/-- Whether a binding is the `FunctionValue` case. -/
def FuncOr.isFunctionValue {α : Type} : FuncOr α → Bool
  | .T _ => false
  | .FunctionValue _ => true

/-- `inkwell::values::BasicValueEnum` as the lowering handles it: an integer
constant (`as_llvm_const` results and the userdata word), the zero-sized unit
struct (`struct_type(&[]).const_zero()`), or the SSA result of an emitted
instruction, tagged with its LLVM type (`val.get_type()`). -/
inductive BVal where
  | constInt (width : Nat) (v : Int)
  | zeroStruct
  | inst (id : Nat) (ty : LlvmTy)
deriving DecidableEq, Repr

/-- `BasicValueEnum::get_type()`. -/
def BVal.getType : BVal → LlvmTy
  | .constInt w _ => .int w
  | .zeroStruct => .structTy
  | .inst _ t => t

/-- `as_llvm_const` of `codegen/src/types.rs` (file not under the sources).
Modelled from the spec: §3 `Const` "binds `dst` to a compile-time literal
lowered to its native representation" — an i32 literal to a 32-bit constant,
a bool to a 1-bit constant. -/
def asLlvmConst : ConstLit → Option BVal
  | .i32 v => some (.constInt 32 v)
  | .bool b => some (.constInt 1 (if b then 1 else 0))

/-- A native instruction as the statement builder emits it. Alloca
instructions are kept separately (the alloca-builder writes into the
prologue block, source lines 271-272 and 301-304). -/
inductive Instr where
  | StoreI (ptr : Nat) (v : BVal)
  | LoadI (ty : LlvmTy) (ptr : Nat)
  | BinI (op : NativeOp) (lhs rhs : BVal)
  | CallI (f : Nat) (args : List BVal)
  | RetVoid
  | Br (target : Nat)
  | CondBr (cond : BVal) (thenB elseB : Nat)
deriving DecidableEq, Repr

/-- The `(type, op)` operator table of the `BinExpr` arm (source lines
363-490), read off arm by arm; note `Gt` at lines 429-438 builds
`IntPredicate::SLT`, the same predicate as `Lt` at lines 439-448. The final
wildcard arm is `todo!` (`none`). -/
def binExprNativeOp : Ty → BinaryOp → Option NativeOp
  | .I32, .Add => some .add
  | .I32, .Sub => some .sub
  | .I32, .Mul => some .mul
  | .I32, .Div => some .sdiv
  | .I32, .Rem => some .srem
  | .I32, .Ge => some (.icmp .SGE)
  | .I32, .Le => some (.icmp .SLE)
  | .I32, .Gt => some (.icmp .SLT)
  | .I32, .Lt => some (.icmp .SLT)
  | .I32, .Eq => some (.icmp .EQ)
  | .I32, .Neq => some (.icmp .NE)
  | .Bool, .And => some .band
  | .Bool, .Or => some .bor
  | _, _ => none

/-- The boolean an LLVM `icmp` with the given predicate computes, on the signed
interpretations of its 32-bit operands. -/
def evalIntPredicate : IntPredicate → Int → Int → Bool
  | .SLT, a, b => a < b
  | .SLE, a, b => a ≤ b
  | .SGT, a, b => b < a
  | .SGE, a, b => b ≤ a
  | .EQ, a, b => a = b
  | .NE, a, b => ¬ a = b

/-- The LLVM type of a `BinExpr` result: comparisons produce `i1`, the
arithmetic and bitwise instructions produce their operand type. -/
def natOpResultTy (op : NativeOp) (lhs : BVal) : LlvmTy :=
  match op with
  | .icmp _ => .int 1
  | _ => lhs.getType

/-- The per-function lowering state of `ModuleGen::add` (source lines
260-294): the three dense maps, the alloca prologue (the types allocated, in
order; a pointer value is an index into it), a fresh-SSA counter for
instruction results, and a counter for appended basic blocks. -/
structure FnState where
  tmpMap : IdMap (FuncOr BVal)
  varMap : IdMap (FuncOr Nat)
  blockMap : IdMap Nat
  allocas : List LlvmTy
  nextId : Nat
  nextBlock : Nat
deriving DecidableEq, Repr

/-- Lower one statement (the match at source lines 297-548). `fns` is the
`FuncId -> FunctionValue` map fixed during the body pass; `func` the typed
function being lowered (read for `func.var` and `func.tmp` types). Returns
the new state and the instructions the statement builder emitted, or `none`
for any panic (`IdMap` misses, `expect` failures, `todo!`). -/
def lowerStmt (fns : IdMap FunctionValue) (func : TFunction) (st : FnState) :
    Statement → Option (FnState × List Instr)
  | .Let dst src =>
    match st.tmpMap.get src with
    | none => none
    | some (.T val) =>
      let ty := val.getType
      let ptr := st.allocas.length
      (st.varMap.set dst (.T ptr)).map fun vm =>
        ({ st with varMap := vm, allocas := st.allocas ++ [ty] }, [.StoreI ptr val])
    | some (.FunctionValue f) =>
      (st.varMap.set dst (.FunctionValue f)).map fun vm =>
        ({ st with varMap := vm }, [])
  | .Store dst src =>
    match (st.varMap.get dst).bind FuncOr.as_t with
    | none => none
    | some ptr =>
      match (st.tmpMap.get src).bind FuncOr.as_t with
      | none => none
      | some val => some (st, [.StoreI ptr val])
  | .Load dst src =>
    match st.varMap.get src with
    | none => none
    | some (.T ptr) =>
      match func.vars.get? src with
      | none => none
      | some vty =>
        match asLlvm vty with
        | none => none
        | some lty =>
          let val : BVal := .inst st.nextId lty
          (st.tmpMap.set dst (.T val)).map fun tm =>
            ({ st with tmpMap := tm, nextId := st.nextId + 1 }, [.LoadI lty ptr])
    | some (.FunctionValue f) =>
      (st.tmpMap.set dst (.FunctionValue f)).map fun tm =>
        ({ st with tmpMap := tm }, [])
  | .Extern dst src =>
    match fns.get src with
    | none => none
    | some f =>
      (st.tmpMap.set dst (.FunctionValue f)).map fun tm =>
        ({ st with tmpMap := tm }, [])
  | .Func dst src =>
    match fns.get src with
    | none => none
    | some f =>
      (st.tmpMap.set dst (.FunctionValue f)).map fun tm =>
        ({ st with tmpMap := tm }, [])
  | .Const dst lit =>
    match asLlvmConst lit with
    | none => none
    | some v =>
      (st.tmpMap.set dst (.T v)).map fun tm =>
        ({ st with tmpMap := tm }, [])
  | .BinExpr dst lhs op rhs =>
    match (st.tmpMap.get lhs).bind FuncOr.as_t with
    | none => none
    | some lv =>
      match (st.tmpMap.get rhs).bind FuncOr.as_t with
      | none => none
      | some rv =>
        match func.temporaries.get? lhs with
        | none => none
        | some lty =>
          match binExprNativeOp lty op with
          | none => none
          | some nop =>
            let val : BVal := .inst st.nextId (natOpResultTy nop lv)
            (st.tmpMap.set dst (.T val)).map fun tm =>
              ({ st with tmpMap := tm, nextId := st.nextId + 1 }, [.BinI nop lv rv])
  | .Call dst fTmp args =>
    match (st.tmpMap.get fTmp).bind FuncOr.as_function_value with
    | none => none
    | some f =>
      match args.mapM (fun a => (st.tmpMap.get a).bind FuncOr.as_t) with
      | none => none
      | some argVals =>
        let val : BVal :=
          match f.ty.ret with
          | some t => .inst st.nextId t
          | none => .zeroStruct
        (st.tmpMap.set dst (.T val)).map fun tm =>
          ({ st with tmpMap := tm, nextId := st.nextId + 1 }, [.CallI f.id argVals])
  | .Return _ => none
  | .ReturnVoid => some (st, [.RetVoid])
  | .UnconditionalJump id =>
    match st.blockMap.get id with
    | none => none
    | some b => some (st, [.Br b])
  | .ConditionalJump c t e =>
    match (st.tmpMap.get c).bind FuncOr.as_t with
    | none => none
    | some cv =>
      match cv.getType with
      | .int _ =>
        match st.blockMap.get t, st.blockMap.get e with
        | some bt, some be => some (st, [.CondBr cv bt be])
        | _, _ => none
      | _ => none

/-- Lower a list of statements in order (the inner loop at source lines
296-549), concatenating the emitted instructions. -/
def lowerStmts (fns : IdMap FunctionValue) (func : TFunction) :
    List Statement → FnState → Option (FnState × List Instr)
  | [], st => some (st, [])
  | s :: rest, st =>
    match lowerStmt fns func st s with
    | none => none
    | some r =>
      match lowerStmts fns func rest r.1 with
      | none => none
      | some r2 => some (r2.1, r.2 ++ r2.2)

/-- The block-allocation loop (source lines 281-291): append one native block
per typed block, in the order `func.blocks()` yields them, and record it in
the block map. -/
def registerBlocks : List (Nat × TBlock) → FnState → Option FnState
  | [], st => some st
  | (blockId, _) :: rest, st =>
    match st.blockMap.set blockId st.nextBlock with
    | none => none
    | some bm => registerBlocks rest { st with blockMap := bm, nextBlock := st.nextBlock + 1 }

/-- Lower the blocks of one function in order (source lines 293-550):
reposition the builder at each registered block (a panicking lookup when the
block was never registered) and lower its statements. -/
def lowerBlocks (fns : IdMap FunctionValue) (func : TFunction) :
    List (Nat × TBlock) → FnState → Option (FnState × List Instr)
  | [], st => some (st, [])
  | (blockId, blk) :: rest, st =>
    match st.blockMap.get blockId with
    | none => none
    | some _ =>
      match lowerStmts fns func blk.stmts st with
      | none => none
      | some r =>
        match lowerBlocks fns func rest r.1 with
        | none => none
        | some r2 => some (r2.1, r.2 ++ r2.2)

/-- The per-function state at the top of the body loop (source lines 271-279):
the three maps from the previous function are cleared, then reserved to this
function's counts; the alloca prologue starts empty. -/
def initFnState (tm : IdMap (FuncOr BVal)) (vm : IdMap (FuncOr Nat)) (bm : IdMap Nat)
    (func : TFunction) : FnState :=
  { tmpMap := tm.clear.reserve func.temporaries.length,
    varMap := vm.clear.reserve func.vars.length,
    blockMap := bm.clear.reserve func.blocks.length,
    allocas := [], nextId := 0, nextBlock := 1 }

/-- Lower one non-extern function (source lines 264-561): set up the cleared
and reserved maps, register the native blocks, lower every block, then build
the deferred unconditional branch from the alloca prologue into block 0 (a
panicking lookup when there is no block 0). -/
def lowerFunction (fns : IdMap FunctionValue) (func : TFunction)
    (tm : IdMap (FuncOr BVal)) (vm : IdMap (FuncOr Nat)) (bm : IdMap Nat) :
    Option (FnState × List Instr) :=
  match registerBlocks func.blocks (initFnState tm vm bm func) with
  | none => none
  | some st1 =>
    match lowerBlocks fns func func.blocks st1 with
    | none => none
    | some r =>
      match r.1.blockMap.get 0 with
      | none => none
      | some b0 => some (r.1, r.2 ++ [.Br b0])

/-- Whether a static type is a function type. -/
def tyIsFunc : Ty → Bool
  | .Func _ => true
  | _ => false

/-- One slot of a compiled-binding map is pure when: an unset slot says
nothing; a bound slot must lie within the type table and be `FunctionValue`
exactly when its static type is a function type (§3 SlotValue invariant). -/
def slotOk {α : Type} : Option (FuncOr α) → Option Ty → Bool
  | some r, some t => r.isFunctionValue == tyIsFunc t
  | some _, none => false
  | none, _ => true

/-- Every addressable slot of a compiled-binding map is pure against the given
type table. -/
def mapOk {α : Type} (tys : List Ty) (m : IdMap (FuncOr α)) : Bool :=
  (List.range m.vals.length).all fun i => slotOk (m.get i) (tys.get? i)

/-- The function-identity purity invariant over a lowering state: the
temporary map is pure against `temporaries` and the variable map against
`variables`. -/
def purityInv (func : TFunction) (st : FnState) : Bool :=
  mapOk func.temporaries st.tmpMap && mapOk func.vars st.varMap

/-- The type-checker's per-statement contract, as far as the purity invariant
relies on it. Modelled from the spec (`typeck` is not under the sources): §3 —
`Let`/`Load` move a binding between a variable and a temporary of the same
static type; `Extern`/`Func` bind a function-typed temporary to a function
identity, "never to a materialized value"; `Const` binds a literal (a value
type); `BinExpr` binds an operator result (a value type); `Call` "binds `dst`
to the call result, or to a zero-sized unit value if the callee is void"
(a value type, §4.4 and P2). Destination ids name real slots (§3: ids are
dense and index the type tables). -/
def stmtWellTyped (func : TFunction) : Statement → Bool
  | .Let dst src => func.vars.get? dst == func.temporaries.get? src
  | .Load dst src => func.temporaries.get? dst == func.vars.get? src
  | .Extern dst _ => ((func.temporaries.get? dst).map tyIsFunc).getD false
  | .Func dst _ => ((func.temporaries.get? dst).map tyIsFunc).getD false
  | .Const dst _ => ((func.temporaries.get? dst).map fun t => !tyIsFunc t).getD false
  | .BinExpr dst _ _ _ => ((func.temporaries.get? dst).map fun t => !tyIsFunc t).getD false
  | .Call dst _ _ => ((func.temporaries.get? dst).map fun t => !tyIsFunc t).getD false
  | _ => true

lemma mapOk_iff {α : Type} (tys : List Ty) (m : IdMap (FuncOr α)) :
    mapOk tys m = true ↔ ∀ i < m.vals.length, slotOk (m.get i) (tys.get? i) = true := by
  simp [mapOk, List.all_eq_true, List.mem_range]

lemma slotOk_of_mapOk {α : Type} {tys : List Ty} {m : IdMap (FuncOr α)}
    (h : mapOk tys m = true) (i : Nat) : slotOk (m.get i) (tys.get? i) = true := by
  by_cases hi : i < m.vals.length
  · exact (mapOk_iff tys m).mp h i hi
  · have : m.get i = none := by
      rw [IdMap.get]
      exact listGetD_ge_length m.vals i (Nat.le_of_not_lt hi)
    rw [this, slotOk]

lemma ty_of_mapOk_get {α : Type} {tys : List Ty} {m : IdMap (FuncOr α)}
    {i : Nat} {r : FuncOr α} (h : mapOk tys m = true) (hget : m.get i = some r) :
    ∃ t, tys.get? i = some t ∧ r.isFunctionValue = tyIsFunc t := by
  have hs := slotOk_of_mapOk h i
  rw [hget] at hs
  cases htys : tys.get? i with
  | none => rw [htys, slotOk] at hs; exact absurd hs (by simp)
  | some t =>
    rw [htys, slotOk] at hs
    exact ⟨t, rfl, by simpa using hs⟩

lemma mapOk_set {α : Type} {tys : List Ty} {m m' : IdMap (FuncOr α)}
    {k : Nat} {v : FuncOr α} (hset : m.set k v = some m')
    (hall : mapOk tys m = true) (hv : slotOk (some v) (tys.get? k) = true) :
    mapOk tys m' = true := by
  rw [mapOk_iff]
  intro i hi
  by_cases hik : i = k
  · subst hik
    rw [IdMap.get_set_self hset, hv]
  · rw [IdMap.get_set_other hset hik]
    exact slotOk_of_mapOk hall i

lemma IdMap.get_clear_reserve {V : Type} (m : IdMap V) (n i : Nat) :
    (m.clear.reserve n).get i = none := by
  rw [IdMap.clear, IdMap.reserve]
  split
  · show (List.nil ++ List.replicate _ none).getD i none = none
    rw [listGetD_append_replicate_none]
    simp [List.getD]
  · simp [IdMap.get, List.getD]

lemma purityInv_initFnState (tm : IdMap (FuncOr BVal)) (vm : IdMap (FuncOr Nat))
    (bm : IdMap Nat) (func : TFunction) :
    purityInv func (initFnState tm vm bm func) = true := by
  rw [purityInv, Bool.and_eq_true]
  constructor <;>
  · rw [mapOk_iff]
    intro i _
    rw [initFnState]
    rw [IdMap.get_clear_reserve]
    rfl

lemma lowerStmt_purity {fns : IdMap FnValue} {func : TFunction} {s : Statement}
    {st st' : FnState} {em : List Instr}
    (hwt : stmtWellTyped func s = true)
    (hinv : purityInv func st = true)
    (h : lowerStmt fns func st s = some (st', em)) :
    purityInv func st' = true := by
  rw [purityInv, Bool.and_eq_true] at hinv
  obtain ⟨hT, hV⟩ := hinv
  cases s with
  | Let dst src =>
    rw [lowerStmt] at h
    cases hsrc : st.tmpMap.get src with
    | none => simp only [hsrc] at h; exact Option.noConfusion h
    | some r =>
      rw [stmtWellTyped, beq_iff_eq] at hwt
      obtain ⟨t, htys, htag⟩ := ty_of_mapOk_get hT hsrc
      cases r with
      | T val =>
        simp only [hsrc, Option.map_eq_some'] at h
        obtain ⟨vm1, hset, heq⟩ := h
        injection heq with heq1 heq2
        subst heq1
        rw [purityInv, Bool.and_eq_true]
        refine ⟨hT, mapOk_set hset hV ?_⟩
        rw [hwt, htys, slotOk]
        simp only [FuncOr.isFunctionValue] at htag ⊢
        simp [← htag]
      | FunctionValue f =>
        simp only [hsrc, Option.map_eq_some'] at h
        obtain ⟨vm1, hset, heq⟩ := h
        injection heq with heq1 heq2
        subst heq1
        rw [purityInv, Bool.and_eq_true]
        refine ⟨hT, mapOk_set hset hV ?_⟩
        rw [hwt, htys, slotOk]
        simp only [FuncOr.isFunctionValue] at htag ⊢
        simp [← htag]
  | Store dst src =>
    rw [lowerStmt] at h
    cases h1 : (st.varMap.get dst).bind FuncOr.as_t with
    | none => simp only [h1] at h; exact Option.noConfusion h
    | some ptr =>
      cases h2 : (st.tmpMap.get src).bind FuncOr.as_t with
      | none => simp only [h1, h2] at h; exact Option.noConfusion h
      | some val =>
        simp only [h1, h2, Option.some_inj] at h
        injection h with heq1 heq2
        subst heq1
        rw [purityInv, Bool.and_eq_true]
        exact ⟨hT, hV⟩
  | Load dst src =>
    rw [lowerStmt] at h
    cases hsrc : st.varMap.get src with
    | none => simp only [hsrc] at h; exact Option.noConfusion h
    | some r =>
      rw [stmtWellTyped, beq_iff_eq] at hwt
      obtain ⟨t, htys, htag⟩ := ty_of_mapOk_get hV hsrc
      cases r with
      | T ptr =>
        cases hvt : func.vars.get? src with
        | none => simp only [hsrc, hvt] at h; exact Option.noConfusion h
        | some vty =>
          cases hlt : asLlvm vty with
          | none => simp only [hsrc, hvt, hlt] at h; exact Option.noConfusion h
          | some lty =>
            simp only [hsrc, hvt, hlt, Option.map_eq_some'] at h
            obtain ⟨tm1, hset, heq⟩ := h
            injection heq with heq1 heq2
            subst heq1
            rw [purityInv, Bool.and_eq_true]
            refine ⟨mapOk_set hset hT ?_, hV⟩
            rw [hwt, htys, slotOk]
            simp only [FuncOr.isFunctionValue] at htag ⊢
            simp [← htag]
      | FunctionValue f =>
        simp only [hsrc, Option.map_eq_some'] at h
        obtain ⟨tm1, hset, heq⟩ := h
        injection heq with heq1 heq2
        subst heq1
        rw [purityInv, Bool.and_eq_true]
        refine ⟨mapOk_set hset hT ?_, hV⟩
        rw [hwt, htys, slotOk]
        simp only [FuncOr.isFunctionValue] at htag ⊢
        simp [← htag]
  | Extern dst src =>
    rw [lowerStmt] at h
    cases h1 : fns.get src with
    | none => simp only [h1] at h; exact Option.noConfusion h
    | some f =>
      simp only [h1, Option.map_eq_some'] at h
      obtain ⟨tm1, hset, heq⟩ := h
      injection heq with heq1 heq2
      subst heq1
      rw [stmtWellTyped] at hwt
      cases htys : func.temporaries.get? dst with
      | none => rw [htys] at hwt; exact absurd hwt (by simp)
      | some t =>
        rw [htys] at hwt
        simp only [Option.map_some', Option.getD_some] at hwt
        rw [purityInv, Bool.and_eq_true]
        refine ⟨mapOk_set hset hT ?_, hV⟩
        rw [htys, slotOk]
        simp [FuncOr.isFunctionValue, hwt]
  | Func dst src =>
    rw [lowerStmt] at h
    cases h1 : fns.get src with
    | none => simp only [h1] at h; exact Option.noConfusion h
    | some f =>
      simp only [h1, Option.map_eq_some'] at h
      obtain ⟨tm1, hset, heq⟩ := h
      injection heq with heq1 heq2
      subst heq1
      rw [stmtWellTyped] at hwt
      cases htys : func.temporaries.get? dst with
      | none => rw [htys] at hwt; exact absurd hwt (by simp)
      | some t =>
        rw [htys] at hwt
        simp only [Option.map_some', Option.getD_some] at hwt
        rw [purityInv, Bool.and_eq_true]
        refine ⟨mapOk_set hset hT ?_, hV⟩
        rw [htys, slotOk]
        simp [FuncOr.isFunctionValue, hwt]
  | Const dst lit =>
    rw [lowerStmt] at h
    cases h1 : asLlvmConst lit with
    | none => simp only [h1] at h; exact Option.noConfusion h
    | some v =>
      simp only [h1, Option.map_eq_some'] at h
      obtain ⟨tm1, hset, heq⟩ := h
      injection heq with heq1 heq2
      subst heq1
      rw [stmtWellTyped] at hwt
      cases htys : func.temporaries.get? dst with
      | none => rw [htys] at hwt; exact absurd hwt (by simp)
      | some t =>
        rw [htys] at hwt
        simp only [Option.map_some', Option.getD_some, Bool.not_eq_true'] at hwt
        rw [purityInv, Bool.and_eq_true]
        refine ⟨mapOk_set hset hT ?_, hV⟩
        rw [htys, slotOk]
        simp [FuncOr.isFunctionValue, hwt]
  | BinExpr dst lhs op rhs =>
    rw [lowerStmt] at h
    cases h1 : (st.tmpMap.get lhs).bind FuncOr.as_t with
    | none => simp only [h1] at h; exact Option.noConfusion h
    | some lv =>
      cases h2 : (st.tmpMap.get rhs).bind FuncOr.as_t with
      | none => simp only [h1, h2] at h; exact Option.noConfusion h
      | some rv =>
        cases h3 : func.temporaries.get? lhs with
        | none => simp only [h1, h2, h3] at h; exact Option.noConfusion h
        | some lty =>
          cases h4 : binExprNativeOp lty op with
          | none => simp only [h1, h2, h3, h4] at h; exact Option.noConfusion h
          | some nop =>
            simp only [h1, h2, h3, h4, Option.map_eq_some'] at h
            obtain ⟨tm1, hset, heq⟩ := h
            injection heq with heq1 heq2
            subst heq1
            rw [stmtWellTyped] at hwt
            cases htys : func.temporaries.get? dst with
            | none => rw [htys] at hwt; exact absurd hwt (by simp)
            | some t =>
              rw [htys] at hwt
              simp only [Option.map_some', Option.getD_some, Bool.not_eq_true'] at hwt
              rw [purityInv, Bool.and_eq_true]
              refine ⟨mapOk_set hset hT ?_, hV⟩
              rw [htys, slotOk]
              simp [FuncOr.isFunctionValue, hwt]
  | Call dst fTmp args =>
    rw [lowerStmt] at h
    cases h1 : (st.tmpMap.get fTmp).bind FuncOr.as_function_value with
    | none => simp only [h1] at h; exact Option.noConfusion h
    | some f =>
      cases h2 : args.mapM fun a => (st.tmpMap.get a).bind FuncOr.as_t with
      | none => simp only [h1, h2] at h; exact Option.noConfusion h
      | some argVals =>
        simp only [h1, h2, Option.map_eq_some'] at h
        obtain ⟨tm1, hset, heq⟩ := h
        injection heq with heq1 heq2
        subst heq1
        rw [stmtWellTyped] at hwt
        cases htys : func.temporaries.get? dst with
        | none => rw [htys] at hwt; exact absurd hwt (by simp)
        | some t =>
          rw [htys] at hwt
          simp only [Option.map_some', Option.getD_some, Bool.not_eq_true'] at hwt
          rw [purityInv, Bool.and_eq_true]
          refine ⟨mapOk_set hset hT ?_, hV⟩
          rw [htys, slotOk]
          simp [FuncOr.isFunctionValue, hwt]
  | Return v => rw [lowerStmt] at h; exact absurd h (by simp)
  | ReturnVoid =>
    rw [lowerStmt] at h
    simp only [Option.some_inj] at h
    injection h with heq1 heq2
    subst heq1
    rw [purityInv, Bool.and_eq_true]
    exact ⟨hT, hV⟩
  | UnconditionalJump id =>
    rw [lowerStmt] at h
    cases h1 : st.blockMap.get id with
    | none => simp only [h1] at h; exact Option.noConfusion h
    | some b =>
      simp only [h1, Option.some_inj] at h
      injection h with heq1 heq2
      subst heq1
      rw [purityInv, Bool.and_eq_true]
      exact ⟨hT, hV⟩
  | ConditionalJump c t e =>
    rw [lowerStmt] at h
    cases h1 : (st.tmpMap.get c).bind FuncOr.as_t with
    | none => simp only [h1] at h; exact Option.noConfusion h
    | some cv =>
      cases h2 : cv.getType with
      | int w =>
        cases h3 : st.blockMap.get t with
        | none => simp only [h1, h2, h3] at h; exact Option.noConfusion h
        | some bt =>
          cases h4 : st.blockMap.get e with
          | none => simp only [h1, h2, h3, h4] at h; exact Option.noConfusion h
          | some be =>
            simp only [h1, h2, h3, h4, Option.some_inj] at h
            injection h with heq1 heq2
            subst heq1
            rw [purityInv, Bool.and_eq_true]
            exact ⟨hT, hV⟩
      | structTy => simp only [h1, h2] at h; exact Option.noConfusion h
      | floatTy => simp only [h1, h2] at h; exact Option.noConfusion h
      | ptrTy => simp only [h1, h2] at h; exact Option.noConfusion h
      | arrayTy => simp only [h1, h2] at h; exact Option.noConfusion h
      | vectorTy => simp only [h1, h2] at h; exact Option.noConfusion h

lemma lowerStmts_purity {fns : IdMap FnValue} {func : TFunction}
    {stmts : List Statement} {st st' : FnState} {em : List Instr}
    (hwt : ∀ s ∈ stmts, stmtWellTyped func s = true)
    (hinv : purityInv func st = true)
    (h : lowerStmts fns func stmts st = some (st', em)) :
    purityInv func st' = true := by
  induction stmts generalizing st em with
  | nil =>
    rw [lowerStmts] at h
    simp only [Option.some_inj] at h
    injection h with heq1 heq2
    subst heq1
    exact hinv
  | cons s rest ih =>
    rw [lowerStmts] at h
    cases h1 : lowerStmt fns func st s with
    | none => simp only [h1] at h; exact Option.noConfusion h
    | some r =>
      cases h2 : lowerStmts fns func rest r.1 with
      | none => simp only [h1, h2] at h; exact Option.noConfusion h
      | some r2 =>
        simp only [h1, h2, Option.some_inj] at h
        injection h with heq1 heq2
        subst heq1
        have hs := lowerStmt_purity (hwt s (List.mem_cons_self s rest)) hinv h1
        exact ih (fun x hx => hwt x (List.mem_cons_of_mem s hx)) hs h2

lemma addressable_applyOps_reserves {V : Type} (m : IdMap V) (ns : List Nat) :
    (m.applyOps (ns.map MapOp.reserve)).addressableSlots =
      ns.foldl max m.addressableSlots := by
  induction ns generalizing m with
  | nil => rfl
  | cons n ns ih =>
    show ((m.reserve n).applyOps (ns.map MapOp.reserve)).addressableSlots = _
    rw [ih]
    have : (m.reserve n).addressableSlots = max m.addressableSlots n :=
      IdMap.length_reserve m n
    rw [this]
    rfl

lemma IdMap.lenLeCap_reserve {V : Type} (m : IdMap V) (n : Nat)
    (h : m.vals.length ≤ m.allocCap) :
    (m.reserve n).vals.length ≤ (m.reserve n).allocCap := by
  rw [IdMap.reserve]
  split
  · simp only [List.length_append, List.length_replicate]
    omega
  · exact h

lemma IdMap.reserve_allocCap_ge {V : Type} (m : IdMap V) (n : Nat)
    (h : m.vals.length ≤ m.allocCap) : n ≤ (m.reserve n).allocCap := by
  rw [IdMap.reserve]
  split
  · exact le_max_right _ _
  · next hc => omega

lemma applyOps_allocCap_mono {V : Type} (m : IdMap V) (ops : List MapOp) :
    m.allocCap ≤ (m.applyOps ops).allocCap := by
  induction ops generalizing m with
  | nil => exact le_refl _
  | cons o ops ih =>
    cases o with
    | reserve n =>
      exact le_trans (IdMap.allocCap_reserve_le m n) (ih (m.reserve n))
    | clear => exact ih m.clear

lemma applyOps_lenLeCap {V : Type} (m : IdMap V) (ops : List MapOp)
    (h : m.vals.length ≤ m.allocCap) :
    (m.applyOps ops).vals.length ≤ (m.applyOps ops).allocCap := by
  induction ops generalizing m with
  | nil => exact h
  | cons o ops ih =>
    cases o with
    | reserve n => exact ih _ (IdMap.lenLeCap_reserve m n h)
    | clear => exact ih _ (Nat.zero_le _)

lemma applyOps_reserve_le_cap {V : Type} (m : IdMap V) (ops : List MapOp) (n : Nat)
    (hmem : MapOp.reserve n ∈ ops) (h : m.vals.length ≤ m.allocCap) :
    n ≤ (m.applyOps ops).allocCap := by
  induction ops generalizing m with
  | nil => simp at hmem
  | cons o ops ih =>
    cases hmem with
    | head =>
      exact le_trans (IdMap.reserve_allocCap_ge m n h)
        (applyOps_allocCap_mono (m.reserve n) ops)
    | tail _ hmem =>
      cases o with
      | reserve k => exact ih _ hmem (IdMap.lenLeCap_reserve m k h)
      | clear => exact ih _ hmem (Nat.zero_le _)

/-- C2 counterexample: with "capacity" read as the claim's own gloss, "number
of addressable slots", a `clear()` right after `reserve(5)` leaves zero
addressable slots — a `set` at key 3 then panics — so `clear` does reduce the
addressable-slot count below the last reserved value. -/
theorem clear_drops_addressable_slots :
    ((IdMap.new : IdMap Nat).reserve 5).clear.addressableSlots = 0 ∧
    ((IdMap.new : IdMap Nat).reserve 5).clear.set 3 7 = none ∧
    (0 : Nat) < 5 := by
  refine ⟨rfl, ?_, by decide⟩
  rfl

/-- C2 amended: after a reserve-only sequence the number of addressable slots
equals the maximum of all reserved lengths; `clear()` drops the addressable
slots to zero but retains the underlying allocation, whose capacity stays at
least every value ever reserved no matter how `clear()` calls are
interleaved. -/
theorem reserve_max_and_cap_retained {V : Type} :
    (∀ ns : List Nat,
      ((IdMap.new : IdMap V).applyOps (ns.map MapOp.reserve)).addressableSlots =
        ns.foldl max 0) ∧
    (∀ m : IdMap V, m.clear.addressableSlots = 0 ∧ m.clear.allocCap = m.allocCap) ∧
    (∀ (ops : List MapOp) (n : Nat), MapOp.reserve n ∈ ops →
      n ≤ ((IdMap.new : IdMap V).applyOps ops).allocCap) := by
  refine ⟨fun ns => addressable_applyOps_reserves IdMap.new ns,
    fun m => ⟨rfl, rfl⟩,
    fun ops n hmem => applyOps_reserve_le_cap IdMap.new ops n hmem (le_refl 0)⟩

/-- C2 witness for the amended theorem: a concrete interleaving —
`reserve 3; reserve 5; clear; reserve 2` — ends with 2 addressable slots while
the allocation capacity still covers the maximal reserved value 5. -/
theorem reserve_max_and_cap_retained_witness :
    ((IdMap.new : IdMap Nat).applyOps ((([3, 5] : List Nat)).map MapOp.reserve)).addressableSlots = 5 ∧
    MapOp.reserve 5 ∈ [MapOp.reserve 3, MapOp.reserve 5, MapOp.clear, MapOp.reserve 2] ∧
    5 ≤ ((IdMap.new : IdMap Nat).applyOps
        [MapOp.reserve 3, MapOp.reserve 5, MapOp.clear, MapOp.reserve 2]).allocCap ∧
    ((IdMap.new : IdMap Nat).applyOps
        [MapOp.reserve 3, MapOp.reserve 5, MapOp.clear, MapOp.reserve 2]).addressableSlots = 2 :=
  ⟨(reserve_max_and_cap_retained.1 [3, 5]).trans (by decide),
   by decide,
   reserve_max_and_cap_retained.2.2
     [MapOp.reserve 3, MapOp.reserve 5, MapOp.clear, MapOp.reserve 2] 5 (by decide),
   by decide⟩

/-- C10: `IdMap::set(k, v)` never grows the map — a key at or beyond the
reserved length panics (`none`), a successful `set` requires the key below
the current length and leaves the length unchanged, and a prior
`reserve(n)` with `k < n` always makes `set` at `k` succeed. -/
theorem set_never_grows {V : Type} :
    (∀ (m : IdMap V) (k : Nat) (v : V), m.vals.length ≤ k → m.set k v = none) ∧
    (∀ (m m' : IdMap V) (k : Nat) (v : V), m.set k v = some m' →
      k < m.vals.length ∧ m'.vals.length = m.vals.length) ∧
    (∀ (m : IdMap V) (n k : Nat) (v : V), k < n →
      ((m.reserve n).set k v).isSome = true) := by
  refine ⟨fun m k v h => ?_, fun m m' k v h => ⟨IdMap.lt_of_set h, IdMap.length_of_set h⟩,
    fun m n k v h => ?_⟩
  · rw [IdMap.set, if_neg (Nat.not_lt.mpr h)]
  · have hk : k < (m.reserve n).vals.length := by
      rw [IdMap.length_reserve]
      omega
    obtain ⟨m', hm⟩ := (IdMap.set_eq_some_iff (m := m.reserve n) (k := k) (v := v)).mpr hk
    rw [hm]
    rfl

/-- C10 witness: with 3 slots reserved, `set` at key 5 panics while `set` at
key 1 succeeds. -/
theorem set_never_grows_witness :
    ((IdMap.new : IdMap Nat).reserve 3).vals.length ≤ 5 ∧
    ((IdMap.new : IdMap Nat).reserve 3).set 5 0 = none ∧
    (((IdMap.new : IdMap Nat).reserve 3).set 1 7).isSome = true :=
  ⟨by decide, set_never_grows.1 (IdMap.new.reserve 3) 5 0 (by decide),
   set_never_grows.2.2 IdMap.new 3 1 7 (by decide)⟩

/-- C3: the `BinExpr` table lowers `Gt` on `I32` with `IntPredicate::SLT`,
exactly as it lowers `Lt`; lowering a `Gt` and an `Lt` statement from the
same operands produces identical states and instructions for every operand
type; and the `SLT` predicate computes the signed `a < b`. -/
theorem gt_lowers_like_lt :
    binExprNativeOp .I32 .Gt = some (.icmp .SLT) ∧
    binExprNativeOp .I32 .Lt = some (.icmp .SLT) ∧
    (∀ (fns : IdMap FnValue) (func : TFunction) (st : FnState) (dst lhs rhs : Nat),
      lowerStmt fns func st (.BinExpr dst lhs .Gt rhs) =
        lowerStmt fns func st (.BinExpr dst lhs .Lt rhs)) ∧
    (∀ a b : Int, evalIntPredicate .SLT a b = decide (a < b)) := by
  refine ⟨rfl, rfl, ?_, fun a b => rfl⟩
  intro fns func st dst lhs rhs
  rw [lowerStmt, lowerStmt]
  cases h1 : (st.tmpMap.get lhs).bind FuncOr.as_t with
  | none => simp only [h1]
  | some lv =>
    cases h2 : (st.tmpMap.get rhs).bind FuncOr.as_t with
    | none => simp only [h1, h2]
    | some rv =>
      cases h3 : func.temporaries.get? lhs with
      | none => simp only [h1, h2, h3]
      | some lty =>
        have hop : binExprNativeOp lty .Gt = binExprNativeOp lty .Lt := by
          cases lty <;> rfl
        simp only [h1, h2, h3, hop]

/-- C6: the `Return { .. }` arm of the lowering is `todo!()` — it aborts for
every state; a return terminator (`ret void`) is emitted by a statement's
lowering exactly when that statement is `ReturnVoid`; and `ReturnVoid` lowers
to precisely that terminator without touching the state. -/
theorem return_lowering_unimplemented :
    (∀ (fns : IdMap FnValue) (func : TFunction) (st : FnState) (v : Nat),
      lowerStmt fns func st (.Return v) = none) ∧
    (∀ (fns : IdMap FnValue) (func : TFunction) (st : FnState) (s : Statement)
      (st' : FnState) (em : List Instr), lowerStmt fns func st s = some (st', em) →
      Instr.RetVoid ∈ em → s = .ReturnVoid) ∧
    (∀ (fns : IdMap FnValue) (func : TFunction) (st : FnState),
      lowerStmt fns func st .ReturnVoid = some (st, [.RetVoid])) := by
  refine ⟨fun fns func st v => rfl, ?_, fun fns func st => rfl⟩
  intro fns func st s st' em h hmem
  cases s with
  | Let dst src =>
    rw [lowerStmt] at h
    cases hsrc : st.tmpMap.get src with
    | none => simp only [hsrc] at h; exact Option.noConfusion h
    | some r =>
      cases r with
      | T val =>
        simp only [hsrc, Option.map_eq_some'] at h
        obtain ⟨vm1, hset, heq⟩ := h
        injection heq with heq1 heq2
        subst heq2
        simp at hmem
      | FunctionValue f =>
        simp only [hsrc, Option.map_eq_some'] at h
        obtain ⟨vm1, hset, heq⟩ := h
        injection heq with heq1 heq2
        subst heq2
        simp at hmem
  | Store dst src =>
    rw [lowerStmt] at h
    cases h1 : (st.varMap.get dst).bind FuncOr.as_t with
    | none => simp only [h1] at h; exact Option.noConfusion h
    | some ptr =>
      cases h2 : (st.tmpMap.get src).bind FuncOr.as_t with
      | none => simp only [h1, h2] at h; exact Option.noConfusion h
      | some val =>
        simp only [h1, h2, Option.some_inj] at h
        injection h with heq1 heq2
        subst heq2
        simp at hmem
  | Load dst src =>
    rw [lowerStmt] at h
    cases hsrc : st.varMap.get src with
    | none => simp only [hsrc] at h; exact Option.noConfusion h
    | some r =>
      cases r with
      | T ptr =>
        cases hvt : func.vars.get? src with
        | none => simp only [hsrc, hvt] at h; exact Option.noConfusion h
        | some vty =>
          cases hlt : asLlvm vty with
          | none => simp only [hsrc, hvt, hlt] at h; exact Option.noConfusion h
          | some lty =>
            simp only [hsrc, hvt, hlt, Option.map_eq_some'] at h
            obtain ⟨tm1, hset, heq⟩ := h
            injection heq with heq1 heq2
            subst heq2
            simp at hmem
      | FunctionValue f =>
        simp only [hsrc, Option.map_eq_some'] at h
        obtain ⟨tm1, hset, heq⟩ := h
        injection heq with heq1 heq2
        subst heq2
        simp at hmem
  | Extern dst src =>
    rw [lowerStmt] at h
    cases h1 : fns.get src with
    | none => simp only [h1] at h; exact Option.noConfusion h
    | some f =>
      simp only [h1, Option.map_eq_some'] at h
      obtain ⟨tm1, hset, heq⟩ := h
      injection heq with heq1 heq2
      subst heq2
      simp at hmem
  | Func dst src =>
    rw [lowerStmt] at h
    cases h1 : fns.get src with
    | none => simp only [h1] at h; exact Option.noConfusion h
    | some f =>
      simp only [h1, Option.map_eq_some'] at h
      obtain ⟨tm1, hset, heq⟩ := h
      injection heq with heq1 heq2
      subst heq2
      simp at hmem
  | Const dst lit =>
    rw [lowerStmt] at h
    cases h1 : asLlvmConst lit with
    | none => simp only [h1] at h; exact Option.noConfusion h
    | some v =>
      simp only [h1, Option.map_eq_some'] at h
      obtain ⟨tm1, hset, heq⟩ := h
      injection heq with heq1 heq2
      subst heq2
      simp at hmem
  | BinExpr dst lhs op rhs =>
    rw [lowerStmt] at h
    cases h1 : (st.tmpMap.get lhs).bind FuncOr.as_t with
    | none => simp only [h1] at h; exact Option.noConfusion h
    | some lv =>
      cases h2 : (st.tmpMap.get rhs).bind FuncOr.as_t with
      | none => simp only [h1, h2] at h; exact Option.noConfusion h
      | some rv =>
        cases h3 : func.temporaries.get? lhs with
        | none => simp only [h1, h2, h3] at h; exact Option.noConfusion h
        | some lty =>
          cases h4 : binExprNativeOp lty op with
          | none => simp only [h1, h2, h3, h4] at h; exact Option.noConfusion h
          | some nop =>
            simp only [h1, h2, h3, h4, Option.map_eq_some'] at h
            obtain ⟨tm1, hset, heq⟩ := h
            injection heq with heq1 heq2
            subst heq2
            simp at hmem
  | Call dst fTmp args =>
    rw [lowerStmt] at h
    cases h1 : (st.tmpMap.get fTmp).bind FuncOr.as_function_value with
    | none => simp only [h1] at h; exact Option.noConfusion h
    | some f =>
      cases h2 : args.mapM fun a => (st.tmpMap.get a).bind FuncOr.as_t with
      | none => simp only [h1, h2] at h; exact Option.noConfusion h
      | some argVals =>
        simp only [h1, h2, Option.map_eq_some'] at h
        obtain ⟨tm1, hset, heq⟩ := h
        injection heq with heq1 heq2
        subst heq2
        simp at hmem
  | Return v => exact Option.noConfusion h
  | ReturnVoid => rfl
  | UnconditionalJump id =>
    rw [lowerStmt] at h
    cases h1 : st.blockMap.get id with
    | none => simp only [h1] at h; exact Option.noConfusion h
    | some b =>
      simp only [h1, Option.some_inj] at h
      injection h with heq1 heq2
      subst heq2
      simp at hmem
  | ConditionalJump c t e =>
    rw [lowerStmt] at h
    cases h1 : (st.tmpMap.get c).bind FuncOr.as_t with
    | none => simp only [h1] at h; exact Option.noConfusion h
    | some cv =>
      cases h2 : cv.getType with
      | int w =>
        cases h3 : st.blockMap.get t with
        | none => simp only [h1, h2, h3] at h; exact Option.noConfusion h
        | some bt =>
          cases h4 : st.blockMap.get e with
          | none => simp only [h1, h2, h3, h4] at h; exact Option.noConfusion h
          | some be =>
            simp only [h1, h2, h3, h4, Option.some_inj] at h
            injection h with heq1 heq2
            subst heq2
            simp at hmem
      | structTy => simp only [h1, h2] at h; exact Option.noConfusion h
      | floatTy => simp only [h1, h2] at h; exact Option.noConfusion h
      | ptrTy => simp only [h1, h2] at h; exact Option.noConfusion h
      | arrayTy => simp only [h1, h2] at h; exact Option.noConfusion h
      | vectorTy => simp only [h1, h2] at h; exact Option.noConfusion h

/-- A function map, a typed function and a state used by concrete witnesses. -/
def exFns : IdMap FnValue :=
  IdMap.new

/-- An empty typed function used by concrete witnesses. -/
def exFunc : TFunction :=
  { params := [], returns := .Void, isExtern := false,
    vars := [], temporaries := [], blocks := [] }

/-- An empty lowering state used by concrete witnesses. -/
def exSt : FnState :=
  { tmpMap := IdMap.new, varMap := IdMap.new, blockMap := IdMap.new,
    allocas := [], nextId := 0, nextBlock := 1 }

/-- C6 witness: `ReturnVoid` at a concrete state emits exactly the `ret void`
terminator, and the theorem instantiates to it. -/
theorem return_lowering_unimplemented_witness :
    lowerStmt exFns exFunc exSt .ReturnVoid = some (exSt, [Instr.RetVoid]) ∧
    lowerStmt exFns exFunc exSt (.Return 0) = none ∧
    Statement.ReturnVoid = Statement.ReturnVoid :=
  ⟨return_lowering_unimplemented.2.2 exFns exFunc exSt,
   return_lowering_unimplemented.1 exFns exFunc exSt 0,
   return_lowering_unimplemented.2.1 exFns exFunc exSt .ReturnVoid exSt
     [Instr.RetVoid] rfl (List.mem_singleton.mpr rfl)⟩

lemma protoLoop_mono {mdl : NativeModule} {fns : IdMap FnValue} {i : Nat}
    {l : List TFunction} {r : NativeModule × IdMap FnValue}
    (h : protoLoop mdl fns i l = some r) (k : Nat)
    (hk : (fns.get k).isSome = true) : (r.2.get k).isSome = true := by
  induction l generalizing mdl fns i with
  | nil =>
    rw [protoLoop] at h
    cases h
    exact hk
  | cons g rest ih =>
    rw [protoLoop] at h
    by_cases he : g.isExtern
    · rw [if_pos he] at h
      exact ih h hk
    · rw [if_neg he] at h
      cases hp : toPrototype g with
      | none => simp only [hp] at h; exact Option.noConfusion h
      | some proto =>
        simp only [hp] at h
        cases hs : fns.set i (mdl.addFunction "fixme-keep-function-name" proto).1 with
        | none => simp only [hs] at h; exact Option.noConfusion h
        | some fns1 =>
          simp only [hs] at h
          refine ih h ?_
          by_cases hik : k = i
          · subst hik
            rw [IdMap.get_set_self hs]
            rfl
          · rw [IdMap.get_set_other hs hik]
            exact hk

lemma protoLoop_sets {mdl : NativeModule} {fns : IdMap FnValue} {i : Nat}
    {l : List TFunction} {r : NativeModule × IdMap FnValue}
    (h : protoLoop mdl fns i l = some r) :
    ∀ j f, l.get? j = some f → f.isExtern = false →
      (r.2.get (i + j)).isSome = true := by
  induction l generalizing mdl fns i with
  | nil => intro j f hj; simp at hj
  | cons g rest ih =>
    intro j f hj hext
    rw [protoLoop] at h
    cases j with
    | zero =>
      simp only [List.get?_cons_zero, Option.some_inj] at hj
      subst hj
      rw [if_neg (by rw [hext]; exact Bool.false_ne_true)] at h
      cases hp : toPrototype g with
      | none => simp only [hp] at h; exact Option.noConfusion h
      | some proto =>
        simp only [hp] at h
        cases hs : fns.set i (mdl.addFunction "fixme-keep-function-name" proto).1 with
        | none => simp only [hs] at h; exact Option.noConfusion h
        | some fns1 =>
          simp only [hs] at h
          rw [Nat.add_zero]
          refine protoLoop_mono h i ?_
          rw [IdMap.get_set_self hs]
          rfl
    | succ j1 =>
      simp only [List.get?_cons_succ] at hj
      by_cases he : g.isExtern
      · rw [if_pos he] at h
        have := ih h j1 f hj hext
        rwa [show i + 1 + j1 = i + (j1 + 1) by omega] at this
      · rw [if_neg he] at h
        cases hp : toPrototype g with
        | none => simp only [hp] at h; exact Option.noConfusion h
        | some proto =>
          simp only [hp] at h
          cases hs : fns.set i (mdl.addFunction "fixme-keep-function-name" proto).1 with
          | none => simp only [hs] at h; exact Option.noConfusion h
          | some fns1 =>
            simp only [hs] at h
            have := ih h j1 f hj hext
            rwa [show i + 1 + j1 = i + (j1 + 1) by omega] at this

/-- C7: after a successful prototype pass, every non-extern function of the
typed module, whatever its index, has a registered native stub in the
`FuncId`-keyed map — so during the body pass, which runs afterwards over that
very map, the `Func{dst, src}` lookup of any non-extern `src` succeeds (the
statement's lowering does not panic once the destination slot is reserved),
forward references and mutual recursion included. -/
theorem prototypes_before_bodies (gen gen' : ModuleGen)
    (h : prototypePass gen = some gen') (i : Nat) (f : TFunction)
    (hi : gen.types.functions.get? i = some f) (hne : f.isExtern = false) :
    (gen'.functions.get i).isSome = true ∧
    (∀ (fb : TFunction) (st : FnState) (dst : Nat), dst < st.tmpMap.vals.length →
      (lowerStmt gen'.functions fb st (.Func dst i)).isSome = true) := by
  rw [prototypePass] at h
  cases hp : protoLoop gen.mdl (gen.functions.reserve gen.types.functions.length) 0
      gen.types.functions with
  | none => simp only [hp] at h; exact Option.noConfusion h
  | some r =>
    simp only [hp, Option.map_some', Option.some_inj] at h
    subst h
    have hsome : (r.2.get i).isSome = true := by
      have := protoLoop_sets hp i f hi hne
      rwa [Nat.zero_add] at this
    refine ⟨hsome, ?_⟩
    intro fb st dst hdst
    cases hget : r.2.get i with
    | none => rw [hget] at hsome; exact Bool.noConfusion hsome
    | some fv =>
      rw [lowerStmt]
      simp only [hget]
      obtain ⟨tm1, hset⟩ :=
        (IdMap.set_eq_some_iff (m := st.tmpMap) (k := dst)
          (v := FuncOr.FunctionValue fv)).mpr hdst
      rw [hset]
      rfl

/-- A one-function typed module for the C7 witness: a single non-extern
function with one `i32` parameter and one temporary. -/
def exGen7 : ModuleGen :=
  { mdl := { fns := [] }, types := { functions :=
      [{ params := [.I32], returns := .Void, isExtern := false,
         vars := [], temporaries := [.Func 0], blocks := [] }] },
    functions := IdMap.new }

/-- The result of the prototype pass on `exGen7` (the fallback branch is never
taken; the equation in the witness pins the value down). -/
def exGen7c : ModuleGen :=
  match prototypePass exGen7 with
  | some g => g
  | none => exGen7

/-- A lowering state for the C7 witness with one reserved temporary slot. -/
def exSt7 : FnState :=
  { tmpMap := IdMap.new.reserve 1, varMap := IdMap.new, blockMap := IdMap.new,
    allocas := [], nextId := 0, nextBlock := 1 }

/-- C7 witness: on the concrete one-function module the prototype pass
registers the stub for `FuncId 0` and the `Func` statement's lookup succeeds. -/
theorem prototypes_before_bodies_witness :
    prototypePass exGen7 = some exGen7c ∧
    ((exGen7c.functions.get 0).isSome = true ∧
      (lowerStmt exGen7c.functions exFunc exSt7 (.Func 0 0)).isSome = true) :=
  ⟨rfl,
   ⟨(prototypes_before_bodies exGen7 exGen7c rfl 0
       { params := [.I32], returns := .Void, isExtern := false,
         vars := [], temporaries := [.Func 0], blocks := [] } rfl rfl).1,
    (prototypes_before_bodies exGen7 exGen7c rfl 0
       { params := [.I32], returns := .Void, isExtern := false,
         vars := [], temporaries := [.Func 0], blocks := [] } rfl rfl).2
      exFunc exSt7 0 (by decide)⟩⟩

/-- C9: function-identity purity. First conjunct: the per-function initial
state (maps cleared and reserved) satisfies the invariant. Second conjunct:
lowering any list of statements that respects the type-checker's contract
preserves it — so at every point during the lowering of every function, a
binding whose static type is a function type is a `FunctionValue` and every
other binding is a materialized value, the binding produced by `Call`
included. -/
theorem function_identity_purity :
    (∀ (tm : IdMap (FuncOr BVal)) (vm : IdMap (FuncOr Nat)) (bm : IdMap Nat)
      (func : TFunction), purityInv func (initFnState tm vm bm func) = true) ∧
    (∀ (fns : IdMap FnValue) (func : TFunction) (stmts : List Statement)
      (st st' : FnState) (em : List Instr),
      (∀ s ∈ stmts, stmtWellTyped func s = true) →
      purityInv func st = true →
      lowerStmts fns func stmts st = some (st', em) →
      purityInv func st' = true) :=
  ⟨purityInv_initFnState,
   fun _ _ _ _ _ _ hwt hinv h => lowerStmts_purity hwt hinv h⟩

/-- The typed function of the C9 witness: an `i32` temporary and a
function-typed temporary. -/
def exFunc9 : TFunction :=
  { params := [], returns := .Void, isExtern := false,
    vars := [.I32], temporaries := [.I32, .Func 0], blocks := [] }

/-- The function map of the C9 witness: one registered native function. -/
def exFns9 : IdMap FnValue :=
  { vals := [some { id := 0, ty := { ret := some (.int 32), params := [] } }],
    allocCap := 1 }

/-- The statements of the C9 witness: bind a constant, bind a function
identity, then materialize the constant into a variable. -/
def exStmts9 : List Statement :=
  [.Const 0 (.i32 5), .Func 1 0, .Let 0 0]

/-- The initial state of the C9 witness. -/
def exSt9 : FnState :=
  initFnState IdMap.new IdMap.new IdMap.new exFunc9

/-- The final state of the C9 witness (the fallback branch is never taken; the
equation in the witness pins the value down). -/
def exRes9 : FnState :=
  match lowerStmts exFns9 exFunc9 exStmts9 exSt9 with
  | some r => r.1
  | none => exSt9

/-- C9 witness: the concrete three-statement lowering satisfies the invariant
at the start and at the end; in between, the theorem's second conjunct applies
to every prefix. -/
theorem function_identity_purity_witness :
    purityInv exFunc9 exSt9 = true ∧
    lowerStmts exFns9 exFunc9 exStmts9 exSt9 =
      some (exRes9, [Instr.StoreI 0 (BVal.constInt 32 5)]) ∧
    purityInv exFunc9 exRes9 = true :=
  ⟨function_identity_purity.1 IdMap.new IdMap.new IdMap.new exFunc9,
   rfl,
   function_identity_purity.2 exFns9 exFunc9 exStmts9 exSt9 exRes9
     [Instr.StoreI 0 (BVal.constInt 32 5)] (by decide)
     (function_identity_purity.1 IdMap.new IdMap.new IdMap.new exFunc9) rfl⟩

/-- A generator whose function map already has two reserved slots (as after an
`add` whose typed module held two functions), isolating the duplicate-name
behavior of `add_extern` (claim C1) from its missing `reserve` (claim C5). -/
def genReserved2 : ModuleGen :=
  { mdl := { fns := [] }, types := TModule.new, functions := IdMap.new.reserve 2 }

/-- The first `add_extern("f", ...)` call of the C1 scenario. -/
def c1FirstCall : Option (Except Error ModuleGen) :=
  genReserved2.addExtern "f" 100 .I32 [.I32]

/-- The generator after the first C1 call (the fallback branch is never taken;
the equation in the theorem pins the value down). -/
def c1Gen1 : ModuleGen :=
  match c1FirstCall with
  | some (.ok g) => g
  | _ => genReserved2

/-- The second `add_extern` call of the C1 scenario, with the same name "f". -/
def c1SecondCall : Option (Except Error ModuleGen) :=
  c1Gen1.addExtern "f" 101 .I32 [.I32]

/-- The generator after the second C1 call. -/
def c1Gen2 : ModuleGen :=
  match c1SecondCall with
  | some (.ok g) => g
  | _ => c1Gen1

/-- C1 (code bug): `ModuleGen::add_extern` has no name-uniqueness check — the
live code never constructs `Error::StaticRedefined` — so registering the name
"f" twice returns `Ok(())` both times instead of failing the second call; the
first registration's binding at `FuncId 0` does survive unchanged. -/
theorem addExtern_second_call_returns_ok :
    c1FirstCall = some (.ok c1Gen1) ∧
    c1SecondCall = some (.ok c1Gen2) ∧
    ¬ c1SecondCall = some (.error (.StaticRedefined "f")) ∧
    c1Gen2.functions.get 0 = c1Gen1.functions.get 0 ∧
    (c1Gen1.functions.get 0).isSome = true := by
  refine ⟨rfl, rfl, ?_, rfl, rfl⟩
  intro hc
  have h2 : c1SecondCall = some (.ok c1Gen2) := rfl
  rw [h2] at hc
  exact Except.noConfusion (Option.some.inj hc)

/-- The `add_extern_userdata` call of the C5 scenario, as the first operation
on a fresh generator. -/
def c5Userdata : Option (Except Error ModuleGen) :=
  ModuleGen.fresh.addExternUserdata "g" 100 7 .I32 [.I32]

/-- The generator after the C5 `add_extern_userdata` call. -/
def c5Gen : ModuleGen :=
  match c5Userdata with
  | some (.ok g) => g
  | _ => ModuleGen.fresh

/-- C5 (code bug): on a fresh generator, `add_extern` as the very first
operation panics — the typed module hands back `FuncId 0` but the function
map was never reserved (`add_extern` lacks the `functions.reserve(func_id.0 +
1)` line its sibling has at source line 651), so `IdMap::set` indexes an
empty vector. `add_extern_userdata`, which does reserve, succeeds as the
first operation. -/
theorem addExtern_first_op_panics :
    ModuleGen.fresh.addExtern "f" 100 .I32 [.I32] = none ∧
    c5Userdata = some (.ok c5Gen) :=
  ⟨rfl, rfl⟩

lemma collectUnwrapped_isSome (l : List Ty) :
    (collectUnwrapped l).isSome = true ↔ ∀ p ∈ l, (asLlvmMeta p).isSome = true := by
  induction l with
  | nil => simp [collectUnwrapped]
  | cons t rest ih =>
    rw [collectUnwrapped]
    cases h1 : asLlvmMeta t with
    | none =>
      simp only [Option.isSome_none, Bool.false_eq_true, false_iff]
      intro hall
      have := hall t (List.mem_cons_self t rest)
      rw [h1] at this
      exact Bool.noConfusion this
    | some lt =>
      cases h2 : collectUnwrapped rest with
      | none =>
        simp only [Option.isSome_none, Bool.false_eq_true, false_iff]
        intro hall
        have : (collectUnwrapped rest).isSome = true :=
          ih.mpr fun p hp => hall p (List.mem_cons_of_mem t hp)
        rw [h2] at this
        exact Bool.noConfusion this
      | some ls =>
        simp only [Option.isSome_some, true_iff]
        intro p hp
        cases List.mem_cons.mp hp with
        | inl hpt => rw [hpt, h1]; rfl
        | inr hpr =>
          have : (collectUnwrapped rest).isSome = true := by rw [h2]; rfl
          exact ih.mp this p hpr

lemma collectUnwrapped_length {l : List Ty} {ps : List LlvmTy}
    (h : collectUnwrapped l = some ps) : ps.length = l.length := by
  induction l generalizing ps with
  | nil =>
    rw [collectUnwrapped] at h
    cases h
    rfl
  | cons t rest ih =>
    rw [collectUnwrapped] at h
    cases h1 : asLlvmMeta t with
    | none => rw [h1] at h; exact Option.noConfusion h
    | some lt =>
      rw [h1] at h
      cases h2 : collectUnwrapped rest with
      | none => rw [h2] at h; exact Option.noConfusion h
      | some ls =>
        rw [h2] at h
        cases h
        simp [ih h2]

lemma filterMap_add_filter_none_length {α β : Type} (f : α → Option β) (l : List α) :
    (l.filterMap f).length + (l.filter fun p => (f p).isNone).length = l.length := by
  induction l with
  | nil => rfl
  | cons a l ih =>
    cases hf : f a with
    | none => simp [List.filterMap_cons, List.filter_cons, hf]; omega
    | some b => simp [List.filterMap_cons, List.filter_cons, hf]; omega

/-- A typed function with one `Void` parameter — the C4 failing input. -/
def exVoidFn : TFunction :=
  { params := [Ty.Void], returns := Ty.I32, isExtern := false,
    vars := [], temporaries := [], blocks := [] }

/-- C4 counterexample: `to_prototype` panics (the model's `none`, for the
`unwrap` of a `None` mapping) on a function whose parameter list contains the
zero-sized `Void` type, instead of omitting that parameter — the claim's
"never fails ... with no error or abort" is false for the Prototype Builder
of defined functions. -/
theorem toPrototype_aborts_on_unit_param :
    toPrototype exVoidFn = none ∧ asLlvmMeta .Void = none :=
  ⟨rfl, rfl⟩

/-- C4 amended: the omission behavior belongs to the extern-bridge path, whose
visible parameter list is built with `filter_map(as_llvm_meta)` — there an
unmapped type is skipped and the native arity can be smaller than the typed
arity (the two arities always add up with the count of unmapped types).
`to_prototype`, used for defined functions, instead unwraps every mapping: it
succeeds exactly when every parameter type has a native mapping, never omits
a parameter (native arity equals typed arity), and aborts otherwise. -/
theorem prototype_paths :
    (∀ func : TFunction, (toPrototype func).isSome = true ↔
      ∀ p ∈ func.params, (asLlvmMeta p).isSome = true) ∧
    (∀ (func : TFunction) (sig : LlvmFnTy), toPrototype func = some sig →
      sig.params.length = func.params.length) ∧
    (∀ (ret : Ty) (params : List Ty),
      (asLlvmFn ret (params.filterMap asLlvmMeta)).params.length +
        (params.filter fun p => (asLlvmMeta p).isNone).length = params.length) := by
  refine ⟨?_, ?_, ?_⟩
  · intro func
    rw [toPrototype]
    cases h : collectUnwrapped func.params with
    | none =>
      simp only [Option.map_none', Option.isSome_none]
      rw [← collectUnwrapped_isSome func.params, h]
      simp
    | some ps =>
      simp only [Option.map_some', Option.isSome_some, true_iff]
      rw [← collectUnwrapped_isSome func.params, h]
      rfl
  · intro func sig h
    rw [toPrototype] at h
    cases hc : collectUnwrapped func.params with
    | none => rw [hc] at h; exact Option.noConfusion h
    | some ps =>
      rw [hc, Option.map_some'] at h
      cases h
      exact collectUnwrapped_length hc
  · intro ret params
    exact filterMap_add_filter_none_length asLlvmMeta params

/-- The value an argument of the wrapped indirect call denotes, given the
actual values `xs` passed to the wrapper's own parameters: the userdata
argument is the fixed pointer-sized constant, a parameter reference forwards
the corresponding actual. -/
def CallArg.denote (xs : List BVal) : CallArg → Option BVal
  | .userdata v => some (.constInt 64 v)
  | .paramRef i => xs.get? i

/-- Denote a call-argument list left to right. -/
def denoteArgs (xs : List BVal) : List CallArg → Option (List BVal)
  | [] => some []
  | a :: rest =>
    match a.denote xs with
    | none => none
    | some b =>
      match denoteArgs xs rest with
      | none => none
      | some bs => some (b :: bs)

lemma denoteArgs_paramRefs_range' (xs : List BVal) (s n : Nat) (h : s + n = xs.length) :
    denoteArgs xs ((List.range' s n).map CallArg.paramRef) = some (xs.drop s) := by
  induction n generalizing s with
  | zero =>
    show denoteArgs xs [] = some (xs.drop s)
    rw [denoteArgs, List.drop_eq_nil_of_le (by omega)]
  | succ n1 ih =>
    rw [List.range'_succ, List.map_cons, denoteArgs]
    have hs : s < xs.length := by omega
    have hd : CallArg.denote xs (.paramRef s) = some xs[s] := by
      rw [CallArg.denote, List.get?_eq_getElem?, List.getElem?_eq_getElem hs]
    rw [hd, ih (s + 1) (by omega), List.drop_eq_getElem_cons hs]

lemma denoteArgs_paramRefs (xs : List BVal) :
    denoteArgs xs ((List.range xs.length).map CallArg.paramRef) = some xs := by
  rw [List.range_eq_range']
  have := denoteArgs_paramRefs_range' xs 0 xs.length (by omega)
  simpa using this

/-- The function at index `i` of a generator's native module. -/
def wrapperAt (g : ModuleGen) (i : Nat) : Option NativeFn :=
  g.mdl.fns.get? i

/-- The externally visible parameter list of the function at index `i`. -/
def wrapperParams (g : ModuleGen) (i : Nat) : Option (List LlvmTy) :=
  (wrapperAt g i).map fun nf => nf.ty.params

/-- The externally visible return type of the function at index `i`. -/
def wrapperRet (g : ModuleGen) (i : Nat) : Option (Option LlvmTy) :=
  (wrapperAt g i).map fun nf => nf.ty.ret

/-- The signature the wrapped indirect call of the thunk at index `i` uses. -/
def wrapperCallTy (g : ModuleGen) (i : Nat) : Option LlvmFnTy :=
  ((wrapperAt g i).bind fun nf => nf.body).map fun b => b.callTy

/-- The argument list of the wrapped indirect call of the thunk at index `i`. -/
def wrapperCallArgs (g : ModuleGen) (i : Nat) : Option (List CallArg) :=
  ((wrapperAt g i).bind fun nf => nf.body).map fun b => b.args

/-- The denoted arguments the thunk at index `i` passes on, for actuals `xs`. -/
def wrapperForwarded (g : ModuleGen) (i : Nat) (xs : List BVal) :
    Option (Option (List BVal)) :=
  ((wrapperAt g i).bind fun nf => nf.body).map fun b => denoteArgs xs b.args

lemma list_set_append_length {α : Type} (l : List α) (x y : α) :
    (l ++ [x]).set l.length y = l ++ [y] := by
  induction l with
  | nil => rfl
  | cons a l ih =>
    show a :: (l ++ [x]).set l.length y = a :: (l ++ [y])
    rw [ih]

lemma list_get?_append_length {α : Type} (l : List α) (x : α) :
    (l ++ [x]).get? l.length = some x := by
  rw [List.get?_eq_getElem?]
  exact List.getElem?_concat_length l x

/-- The wrapper function `add_extern_userdata(name, fn_ptr, userdata, ret,
params)` builds, in closed form: visible signature `(mapped params) -> ret`,
thunk body calling through `fn_ptr` with the userdata-prepended signature and
the userdata constant followed by the forwarded parameters. -/
def userdataWrapperFn (name : String) (fnPtr ud : Nat)
    (ret : Ty) (params : List Ty) (rb : RetBridge) : NativeFn :=
  { name := name,
    ty := asLlvmFn ret (params.filterMap asLlvmMeta),
    body := some
      { calleeAddr := fnPtr,
        callTy := asLlvmFn ret (usizeLl :: params.filterMap asLlvmMeta),
        args := CallArg.userdata ud ::
          (List.range (params.filterMap asLlvmMeta).length).map CallArg.paramRef,
        retBridge := rb } }

/-- The function map `add_extern_userdata` leaves behind, in closed form:
reserved up to the new extern's id, with the wrapper's `FunctionValue` set
there. -/
def userdataFunctionsMap (gen : ModuleGen) (ret : Ty) (params : List Ty) :
    IdMap FnValue :=
  { vals := ((gen.functions.reserve (gen.types.functions.length + 1)).vals).set
      gen.types.functions.length
      (some { id := gen.mdl.fns.length,
              ty := asLlvmFn ret (params.filterMap asLlvmMeta) }),
    allocCap := (gen.functions.reserve (gen.types.functions.length + 1)).allocCap }

lemma addExternUserdata_characterized (gen : ModuleGen) (name : String)
    (fnPtr ud : Nat) (ret : Ty) (params : List Ty) :
    gen.addExternUserdata name fnPtr ud ret params =
      (bridgeRet (asLlvm ret)).map fun rb =>
        Except.ok
          { mdl := { fns := gen.mdl.fns ++
              [userdataWrapperFn name fnPtr ud ret params rb] },
            types := (gen.types.addExternFn name ret params).2,
            functions := userdataFunctionsMap gen ret params } := by
  rw [ModuleGen.addExternUserdata]
  simp only [TModule.addExternFn, NativeModule.addFunction, mkBridgeBody, asLlvmFn]
  have hlen : gen.types.functions.length <
      ((gen.functions.reserve (gen.types.functions.length + 1)).vals).length := by
    rw [IdMap.length_reserve]
    omega
  rw [IdMap.set, if_pos hlen]
  cases hb : bridgeRet (asLlvm ret) with
  | none => simp only [hb, Option.map_none']
  | some rb =>
    simp only [hb, Option.map_some']
    rw [NativeModule.attachBody]
    simp only [list_get?_append_length]
    rw [list_set_append_length]
    simp only [userdataWrapperFn, userdataFunctionsMap, asLlvmFn]

/-- C8: every successful `add_extern_userdata(name, fn_ptr, userdata, ret,
params)` appends one wrapper whose externally visible signature is
`(mapped params) -> ret` — no userdata parameter in it — while the indirect
call inside uses the signature with the pointer-sized userdata word
prepended, and its argument list is the fixed userdata constant followed by
the wrapper's own parameters in order; denoting those arguments against any
actuals `xs` of matching arity forwards exactly `userdata :: xs`, the actuals
unchanged and in order. -/
theorem userdata_wrapper_shape (gen g' : ModuleGen) (name : String)
    (fnPtr ud : Nat) (ret : Ty) (params : List Ty)
    (h : gen.addExternUserdata name fnPtr ud ret params = some (.ok g')) :
    wrapperParams g' gen.mdl.fns.length = some (params.filterMap asLlvmMeta) ∧
    wrapperRet g' gen.mdl.fns.length = some (asLlvm ret) ∧
    wrapperCallTy g' gen.mdl.fns.length =
      some (asLlvmFn ret (usizeLl :: params.filterMap asLlvmMeta)) ∧
    wrapperCallArgs g' gen.mdl.fns.length =
      some (CallArg.userdata ud ::
        (List.range (params.filterMap asLlvmMeta).length).map CallArg.paramRef) ∧
    (∀ xs : List BVal, xs.length = (params.filterMap asLlvmMeta).length →
      wrapperForwarded g' gen.mdl.fns.length xs =
        some (some (.constInt 64 ud :: xs))) := by
  rw [addExternUserdata_characterized] at h
  cases hb : bridgeRet (asLlvm ret) with
  | none => rw [hb] at h; exact Option.noConfusion h
  | some rb =>
    rw [hb, Option.map_some'] at h
    have hg : g' =
        { mdl := { fns := gen.mdl.fns ++
            [userdataWrapperFn name fnPtr ud ret params rb] },
          types := (gen.types.addExternFn name ret params).2,
          functions := userdataFunctionsMap gen ret params } :=
      (Except.ok.inj (Option.some.inj h)).symm
    subst hg
    have hat : wrapperAt
        { mdl := { fns := gen.mdl.fns ++
            [userdataWrapperFn name fnPtr ud ret params rb] },
          types := (gen.types.addExternFn name ret params).2,
          functions := userdataFunctionsMap gen ret params } gen.mdl.fns.length =
        some (userdataWrapperFn name fnPtr ud ret params rb) := by
      rw [wrapperAt]
      exact list_get?_append_length gen.mdl.fns _
    refine ⟨?_, ?_, ?_, ?_, ?_⟩
    · rw [wrapperParams, hat]; rfl
    · rw [wrapperRet, hat]; rfl
    · rw [wrapperCallTy, hat]; rfl
    · rw [wrapperCallArgs, hat]; rfl
    · intro xs hx
      rw [wrapperForwarded, hat]
      simp only [userdataWrapperFn, Option.some_bind, Option.map_some']
      simp only [denoteArgs, CallArg.denote]
      rw [← hx, denoteArgs_paramRefs]

/-- The C8 witness call: an `add_extern_userdata` with userdata 7 on a fresh
generator. -/
def exUd : Option (Except Error ModuleGen) :=
  ModuleGen.fresh.addExternUserdata "h" 100 7 .I32 [.I32]

/-- The generator after the C8 witness call (the fallback branch is never
taken; the equation in the witness pins the value down). -/
def exUdGen : ModuleGen :=
  match exUd with
  | some (.ok g) => g
  | _ => ModuleGen.fresh

/-- C8 witness: the concrete wrapper exposes only the mapped `i32` parameter,
calls with userdata first, and forwards an actual argument unchanged after
the userdata constant. -/
theorem userdata_wrapper_shape_witness :
    ModuleGen.fresh.addExternUserdata "h" 100 7 .I32 [.I32] = some (.ok exUdGen) ∧
    wrapperParams exUdGen 0 = some [.int 32] ∧
    wrapperCallArgs exUdGen 0 = some [.userdata 7, .paramRef 0] ∧
    wrapperForwarded exUdGen 0 [.constInt 32 41] =
      some (some [.constInt 64 7, .constInt 32 41]) :=
  ⟨rfl,
   (userdata_wrapper_shape ModuleGen.fresh exUdGen "h" 100 7 .I32 [.I32] rfl).1,
   (userdata_wrapper_shape ModuleGen.fresh exUdGen "h" 100 7 .I32 [.I32] rfl).2.2.2.1,
   (userdata_wrapper_shape ModuleGen.fresh exUdGen "h" 100 7 .I32 [.I32] rfl).2.2.2.2
     [.constInt 32 41] rfl⟩
